import Mathlib

/-!
Verification of the singly-linked list in `src/data_structs/mod.rs` of
the `algo-rust` repository.

The Rust chain `Option<Box<Node<T>>>` (a `Node` holds a `value : T` and a
`next : Option<Box<Node<T>>>`) is embedded as `List T`: `None` is `[]` and
`Some(Box(Node { value, next }))` is `value :: next`.  The number of nodes
reachable from a chain is its `List.length`.  The `usize` field `length`
is embedded as `Nat` (no claim depends on wrap-around at `2^64`).

Methods taking `&mut self` become functions `LinkedList T → ... → LinkedList T`
(or returning a pair with the result); methods taking `&self` cannot mutate,
so they become pure functions of the state.
-/

namespace AlgoRust

/-- `pub struct LinkedList<T> { head: Option<Box<Node<T>>>, length: usize }`. -/
structure LinkedList (T : Type) where
  head : List T
  length : Nat
deriving DecidableEq, Repr

namespace LinkedList

variable {T : Type}

/-- `LinkedList::new`: `LinkedList { head: None, length: 0 }`. -/
def new (T : Type) : LinkedList T :=
  { head := [], length := 0 }

/-- `LinkedList::push`: increments `length`, allocates a node holding `value`
whose `next` is the old head, and installs it as the new head. -/
def push (s : LinkedList T) (value : T) : LinkedList T :=
  { head := value :: s.head, length := s.length + 1 }

/-- `LinkedList::pop`: `self.head.take().map(|node| { self.length -= 1;
self.head = node.next; node.value })`.  When the head is `None` the `map`
does nothing and the list is unchanged. -/
def pop (s : LinkedList T) : Option T × LinkedList T :=
  match s.head with
  | [] => (none, s)
  | value :: next => (some value, { head := next, length := s.length - 1 })

/-- `LinkedList::peek`: `self.head.as_ref().map(|node| &node.value)`. -/
def peek (s : LinkedList T) : Option T :=
  s.head.head?

/-- A call to `peek` through the `&self` receiver: the shared borrow means the
call cannot mutate the list, so the method call returns its result together
with the unchanged state. -/
def peek_call (s : LinkedList T) : Option T × LinkedList T :=
  (s.head.head?, s)

/-- `LinkedList::peek_mut`: the value the returned `Option<&mut T>` refers to
(the head node's value), or `none` when the list is empty. -/
def peek_mut (s : LinkedList T) : Option T :=
  s.head.head?

/-- Writing `v` through the `&mut T` returned by `peek_mut`: replaces the head
node's value in place; on an empty list `peek_mut` returned `None` and there
is nothing to write. -/
def peek_mut_write (s : LinkedList T) (v : T) : LinkedList T :=
  match s.head with
  | [] => s
  | _ :: next => { head := v :: next, length := s.length }

/-- `LinkedList::length`: returns the stored `length` field. -/
def lengthFn (s : LinkedList T) : Nat :=
  s.length

/-- `LinkedList::is_empty`: `self.length == 0`. -/
def is_empty (s : LinkedList T) : Bool :=
  s.length == 0

/-- `LinkedList::clear`: `*self = Self::new()`. -/
def clear (_s : LinkedList T) : LinkedList T :=
  new T

/-- The loop body of `impl Clone for LinkedList<T>`: walks `current` from the
original head and pushes a clone of each visited value onto `new_list`. -/
def cloneLoop (current : List T) (new_list : LinkedList T) : LinkedList T :=
  match current with
  | [] => new_list
  | value :: next => cloneLoop next (new_list.push value)

/-- `impl Clone for LinkedList<T>::clone`: starts from `Self::new()` and runs
the walk-and-push loop over the original chain. -/
def clone (s : LinkedList T) : LinkedList T :=
  cloneLoop s.head (new T)

/-- The loop of `impl Drop for LinkedList<T>`: `let mut current =
self.head.take(); while let Some(node) = current { current = node.next; }`.
Each iteration detaches one node (moving its `next` out) and releases it;
the function returns the values of the released nodes in release order. -/
def dropRun : List T → List T
  | [] => []
  | value :: next => value :: dropRun next

/-- The number of iterations the `Drop` loop performs on a given chain. -/
def dropSteps : List T → Nat
  | [] => 0
  | _ :: next => dropSteps next + 1

/-- The documented invariant: the stored `length` equals the number of nodes
reachable from `head`. -/
def invariant (s : LinkedList T) : Prop :=
  s.length = s.head.length

instance (s : LinkedList T) : Decidable s.invariant := by
  unfold invariant; infer_instance

end LinkedList

/-- `pub struct IntoIter<T> { list: LinkedList<T> }`. -/
structure IntoIter (T : Type) where
  list : LinkedList T
deriving DecidableEq, Repr

/-- `pub struct Iter<'a, T> { next: Option<&'a Node<T>> }`: the reference into
the chain is embedded as the referenced suffix of the chain. -/
structure Iter (T : Type) where
  next : List T
deriving DecidableEq, Repr

/-- `pub struct IterMut<'a, T> { next: Option<&'a mut Node<T>> }`. -/
structure IterMut (T : Type) where
  next : List T
deriving DecidableEq, Repr

namespace LinkedList

variable {T : Type}

/-- `LinkedList::into_iter`: `IntoIter { list: self }`. -/
def into_iter (s : LinkedList T) : IntoIter T :=
  { list := s }

/-- `LinkedList::iter`: `Iter { next: self.head.as_deref() }`. -/
def iter (s : LinkedList T) : Iter T :=
  { next := s.head }

/-- `LinkedList::iter_mut`: `IterMut { next: self.head.as_deref_mut() }`. -/
def iter_mut (s : LinkedList T) : IterMut T :=
  { next := s.head }

end LinkedList

/-- `impl Iterator for IntoIter<T>::next`: takes the list's head, installs
`node.next` as the new head and yields `node.value`.  Note the source does
NOT touch `self.list.length` here. -/
def IntoIter.step (it : IntoIter T) : Option T × IntoIter T :=
  match it.list.head with
  | [] => (none, it)
  | value :: next => (some value, { list := { head := next, length := it.list.length } })

/-- `impl Iterator for Iter<'a, T>::next`: yields a reference to the current
node's value and advances `next` to `node.next.as_deref()`. -/
def Iter.step (it : Iter T) : Option T × Iter T :=
  match it.next with
  | [] => (none, it)
  | value :: next => (some value, { next := next })

/-- `impl Iterator for IterMut<'a, T>::next`: yields a mutable reference to
the current node's value and advances `next`. -/
def IterMut.step (it : IterMut T) : Option T × IterMut T :=
  match it.next with
  | [] => (none, it)
  | value :: next => (some value, { next := next })

/-- Calling `IntoIter::next` up to `fuel` times, collecting the yielded
values, and stopping at the first `None`. -/
def IntoIter.drain : Nat → IntoIter T → List T × IntoIter T
  | 0, it => ([], it)
  | fuel + 1, it =>
    match it.step with
    | (none, it2) => ([], it2)
    | (some v, it2) =>
      let r := IntoIter.drain fuel it2
      (v :: r.1, r.2)

/-- Calling `Iter::next` up to `fuel` times, collecting the yielded values,
and stopping at the first `None`. -/
def Iter.drain : Nat → Iter T → List T × Iter T
  | 0, it => ([], it)
  | fuel + 1, it =>
    match it.step with
    | (none, it2) => ([], it2)
    | (some v, it2) =>
      let r := Iter.drain fuel it2
      (v :: r.1, r.2)

/-- Calling `IterMut::next` up to `fuel` times, collecting the yielded
values, and stopping at the first `None`. -/
def IterMut.drain : Nat → IterMut T → List T × IterMut T
  | 0, it => ([], it)
  | fuel + 1, it =>
    match it.step with
    | (none, it2) => ([], it2)
    | (some v, it2) =>
      let r := IterMut.drain fuel it2
      (v :: r.1, r.2)

namespace LinkedList

variable {T : Type}

/-- Pushing a whole sequence of values in order, as a client loop of calls to
`push`. -/
def pushAll (s : LinkedList T) (vs : List T) : LinkedList T :=
  vs.foldl push s

/-- Calling `pop` exactly `n` times, collecting each returned `Option`. -/
def popRun : Nat → LinkedList T → List (Option T) × LinkedList T
  | 0, s => ([], s)
  | n + 1, s =>
    let r := pop s
    let rest := popRun n r.2
    (r.1 :: rest.1, rest.2)

end LinkedList


namespace LinkedList

variable {T : Type}

/-- A client operation on the list: a push of a given value, or a pop. -/
inductive Op (T : Type) where
  | push (value : T) : Op T
  | pop : Op T
deriving DecidableEq, Repr

/-- Performing one client operation. -/
def applyOp (s : LinkedList T) : Op T → LinkedList T
  | Op.push v => s.push v
  | Op.pop => (s.pop).2

/-- Performing a sequence of client operations in order. -/
def applyOps (s : LinkedList T) (ops : List (Op T)) : LinkedList T :=
  ops.foldl applyOp s

/-- The number of pushes in a sequence of operations. -/
def pushCount : List (Op T) → Nat
  | [] => 0
  | Op.push _ :: rest => pushCount rest + 1
  | Op.pop :: rest => pushCount rest

/-- The number of pops in a sequence of operations. -/
def popCount : List (Op T) → Nat
  | [] => 0
  | Op.push _ :: rest => popCount rest
  | Op.pop :: rest => popCount rest + 1

/-- Holds when, starting from `s`, no pop in the sequence is executed on an
empty list. -/
def noPrematurePop (s : LinkedList T) : List (Op T) → Bool
  | [] => true
  | Op.push v :: rest => noPrematurePop (s.push v) rest
  | Op.pop :: rest => !s.head.isEmpty && noPrematurePop (s.pop).2 rest

theorem pushAll_eq (vs : List T) : ∀ s : LinkedList T,
    pushAll s vs = { head := vs.reverse ++ s.head, length := s.length + vs.length } := by
  induction vs with
  | nil => intro s; simp [pushAll]
  | cons v vs ih =>
    intro s
    have h0 : pushAll s (v :: vs) = pushAll (s.push v) vs := rfl
    rw [h0, ih]
    simp [push, List.append_assoc]
    omega

theorem popRun_add (m n : Nat) : ∀ s : LinkedList T,
    popRun (m + n) s =
      ((popRun m s).1 ++ (popRun n (popRun m s).2).1, (popRun n (popRun m s).2).2) := by
  induction m with
  | zero => intro s; simp [popRun]
  | succ m ih =>
    intro s
    rw [Nat.succ_add]
    simp only [popRun, ih (s.pop).2]
    simp

theorem popRun_full (c : List T) : ∀ len : Nat, len = c.length →
    popRun c.length { head := c, length := len } = (c.map some, new T) := by
  induction c with
  | nil =>
    intro len h
    subst h
    rfl
  | cons v c ih =>
    intro len h
    subst h
    have hpop : pop { head := v :: c, length := (v :: c).length } =
        (some v, { head := c, length := c.length }) := by
      simp [pop]
    show popRun (c.length + 1) _ = _
    simp only [popRun, hpop, ih c.length rfl]
    simp

theorem cloneLoop_eq (c : List T) : ∀ acc : LinkedList T,
    cloneLoop c acc = { head := c.reverse ++ acc.head, length := acc.length + c.length } := by
  induction c with
  | nil => intro acc; simp [cloneLoop]
  | cons v c ih =>
    intro acc
    rw [cloneLoop, ih]
    simp [push, List.append_assoc]
    omega

theorem clone_eq (s : LinkedList T) :
    clone s = { head := s.head.reverse, length := s.head.length } := by
  rw [clone, cloneLoop_eq]
  simp [new]

theorem dropRun_eq (c : List T) : dropRun c = c := by
  induction c with
  | nil => rfl
  | cons v c ih => rw [dropRun, ih]

theorem dropSteps_eq (c : List T) : dropSteps c = c.length := by
  induction c with
  | nil => rfl
  | cons v c ih => rw [dropSteps, ih]; rfl

end LinkedList

theorem Iter.drainFullIter {T : Type} (c : List T) :
    Iter.drain c.length { next := c } = (c, { next := [] }) := by
  induction c with
  | nil => rfl
  | cons v c ih =>
    show Iter.drain (c.length + 1) _ = _
    simp only [Iter.drain, Iter.step, ih]

theorem IterMut.drainFullIterMut {T : Type} (c : List T) :
    IterMut.drain c.length { next := c } = (c, { next := [] }) := by
  induction c with
  | nil => rfl
  | cons v c ih =>
    show IterMut.drain (c.length + 1) _ = _
    simp only [IterMut.drain, IterMut.step, ih]

theorem IntoIter.drainFullIntoIter {T : Type} (c : List T) : ∀ len : Nat,
    IntoIter.drain c.length { list := { head := c, length := len } } =
      (c, { list := { head := [], length := len } }) := by
  induction c with
  | nil => intro len; rfl
  | cons v c ih =>
    intro len
    show IntoIter.drain (c.length + 1) _ = _
    simp only [IntoIter.drain, IntoIter.step, ih len]


open LinkedList in
/-- Claim C1: the code violates it.  `clone` walks the original chain
front-to-back and re-`push`es each value, which reverses the order: at the
list built by `push(0); push(1)` (front-to-back chain `[1, 0]`) the clone's
chain is `[0, 1]`, so the original's first pop yields `1` while the clone's
first pop yields `0` — the pop sequences differ. -/
theorem C1_clone_reverses_chain :
    clone (pushAll (new Nat) [0, 1]) = { head := [0, 1], length := 2 } ∧
    ((pushAll (new Nat) [0, 1]).pop).1 = some 1 ∧
    ((clone (pushAll (new Nat) [0, 1])).pop).1 = some 0 := by
  decide

open LinkedList in
/-- Claim C2: pushing `v1, …, vn` onto a new list and then popping `n + 1`
times yields `some vn, …, some v1` (LIFO order) followed by `none`, ending in
the empty list. -/
theorem C2_push_pop_lifo (T : Type) (vs : List T) :
    popRun (vs.length + 1) (pushAll (new T) vs) =
      (vs.reverse.map some ++ [none], new T) := by
  have hpush : pushAll (new T) vs = { head := vs.reverse, length := vs.length } := by
    rw [pushAll_eq]
    simp [new]
  have hlen : vs.length = vs.reverse.length := (List.length_reverse vs).symm
  rw [hpush, popRun_add]
  have hfull : popRun vs.length { head := vs.reverse, length := vs.length } =
      (vs.reverse.map some, new T) := by
    rw [hlen]
    exact popRun_full vs.reverse vs.reverse.length rfl
  rw [hfull]
  rfl

open LinkedList in
/-- Claim C3: starting from `new()`, running any interleaving of pushes and
pops in which no pop hits an empty list leaves `length()` equal to the number
of pushes minus the number of pops; and for every list, `is_empty()` returns
true iff `length()` returns 0. -/
theorem C3_length_counts (T : Type) (ops : List (Op T))
    (hsafe : noPrematurePop (new T) ops = true) :
    (applyOps (new T) ops).lengthFn = pushCount ops - popCount ops ∧
      ∀ s : LinkedList T, s.is_empty = true ↔ s.lengthFn = 0 := by
  have main : ∀ (l : List (Op T)) (s : LinkedList T), s.invariant →
      noPrematurePop s l = true →
      (applyOps s l).invariant ∧
        (applyOps s l).length + popCount l = s.length + pushCount l := by
    intro l
    induction l with
    | nil => intro s hinv _; simpa [applyOps, pushCount, popCount] using hinv
    | cons op rest ih =>
      intro s hinv hsafe
      cases op with
      | push v =>
        have hinv2 : (s.push v).invariant := by
          simp [invariant, push] at hinv ⊢
          omega
        have hsafe2 : noPrematurePop (s.push v) rest = true := by
          simpa [noPrematurePop] using hsafe
        have step : applyOps s (Op.push v :: rest) = applyOps (s.push v) rest := rfl
        have := ih (s.push v) hinv2 hsafe2
        rw [step]
        refine ⟨this.1, ?_⟩
        have hlen : (s.push v).length = s.length + 1 := rfl
        rw [pushCount, popCount]
        omega
      | pop =>
        rw [noPrematurePop, Bool.and_eq_true] at hsafe
        obtain ⟨hne, hsafe2⟩ := hsafe
        have hne2 : s.head ≠ [] := by
          intro h
          rw [h] at hne
          simp at hne
        obtain ⟨v, c, hc⟩ : ∃ v c, s.head = v :: c := by
          cases hh : s.head with
          | nil => exact absurd hh hne2
          | cons v c => exact ⟨v, c, rfl⟩
        have hpop : s.pop = (some v, { head := c, length := s.length - 1 }) := by
          rw [pop]
          split
          · simp_all
          · simp_all
        have hinv2 : (s.pop).2.invariant := by
          rw [hpop]
          rw [invariant] at hinv ⊢
          rw [hc] at hinv
          simp at hinv ⊢
          omega
        have hslen : 1 ≤ s.length := by
          rw [invariant, hc] at hinv
          simp at hinv
          omega
        have step : applyOps s (Op.pop :: rest) = applyOps (s.pop).2 rest := rfl
        have := ih (s.pop).2 hinv2 hsafe2
        rw [step]
        refine ⟨this.1, ?_⟩
        have hlen : (s.pop).2.length = s.length - 1 := by rw [hpop]
        rw [pushCount, popCount]
        omega
  have hnew : (new T).invariant := by simp [invariant, new]
  have h := main ops (new T) hnew hsafe
  constructor
  · have : (new T).length = 0 := rfl
    rw [lengthFn]
    omega
  · intro s
    rw [is_empty, lengthFn]
    simp

open LinkedList in
/-- Claim C3 witness: for the concrete safe sequence push 1, push 2, pop,
push 3 the resulting length is the push count minus the pop count, and
`is_empty` on the empty list agrees with `length == 0`. -/
theorem C3_length_counts_witness :
    noPrematurePop (new Nat) [Op.push 1, Op.push 2, Op.pop, Op.push 3] = true ∧
    (applyOps (new Nat) [Op.push 1, Op.push 2, Op.pop, Op.push 3]).lengthFn =
      pushCount [Op.push 1, Op.push 2, Op.pop, Op.push 3] -
        popCount (T := Nat) [Op.push 1, Op.push 2, Op.pop, Op.push 3] ∧
    ((new Nat).is_empty = true ↔ (new Nat).lengthFn = 0) := by
  refine ⟨by decide, ?_, ?_⟩
  · exact (C3_length_counts Nat [Op.push 1, Op.push 2, Op.pop, Op.push 3] (by decide)).1
  · exact (C3_length_counts Nat [Op.push 1, Op.push 2, Op.pop, Op.push 3] (by decide)).2 (new Nat)

open LinkedList in
/-- Claim C4 (amended): the stored length equals the number of nodes reachable
from head for `new()`, and this invariant is preserved by `push`, `pop`,
`clear` and `clone`; it is NOT preserved by an advance of the consuming
iterator, whose `next` removes a node without updating the stored length. -/
theorem C4_invariant_preserved :
    (∀ T : Type, (new T).invariant) ∧
    (∀ (T : Type) (s : LinkedList T) (v : T), s.invariant → (s.push v).invariant) ∧
    (∀ (T : Type) (s : LinkedList T), s.invariant → (s.pop).2.invariant) ∧
    (∀ (T : Type) (s : LinkedList T), (s.clear).invariant) ∧
    (∀ (T : Type) (s : LinkedList T), (s.clone).invariant) := by
  refine ⟨?_, ?_, ?_, ?_, ?_⟩
  · intro T
    simp [invariant, new]
  · intro T s v h
    simp [invariant, push] at h ⊢
    omega
  · intro T s h
    rw [invariant] at h
    cases hc : s.head with
    | nil => simpa [invariant, pop, hc] using h
    | cons v c =>
      rw [hc] at h
      simp [invariant, pop, hc]
      simp at h
      omega
  · intro T s
    simp [invariant, clear, new]
  · intro T s
    rw [clone_eq]
    simp [invariant]

open LinkedList in
/-- Claim C4 witness: the invariant holds after pushing 3 onto a new list and
popping once. -/
theorem C4_invariant_preserved_witness : (((new Nat).push 3).pop).2.invariant :=
  C4_invariant_preserved.2.2.1 Nat ((new Nat).push 3)
    (C4_invariant_preserved.2.1 Nat (new Nat) 3 (C4_invariant_preserved.1 Nat))

open LinkedList in
/-- Claim C4 counterexample: on the one-element list built by push(1) the
invariant holds, but after one advance of the consuming iterator the stored
length is still 1 while no node is reachable from head, so the invariant is
not preserved by the consuming iterator as the claim states. -/
theorem C4_intoiter_breaks_invariant :
    (into_iter ((new Nat).push 1)).list.invariant ∧
    ¬ (IntoIter.step (into_iter ((new Nat).push 1))).2.list.invariant := by
  decide

open LinkedList in
/-- Claim C5: `iter()` over the list built by pushing 1, 2, 3 in that order
yields 3, 2, 1; for every list satisfying the length invariant, `iter()` and
`iter_mut()` produce exactly `length()` yields front-to-back and are then
exhausted, and `into_iter()` yields every value front-to-back until the list
is fully drained. -/
theorem C5_iterators_order_and_count :
    (Iter.drain (pushAll (new Nat) [1, 2, 3]).lengthFn
        (pushAll (new Nat) [1, 2, 3]).iter).1 = [3, 2, 1] ∧
    ∀ (T : Type) (s : LinkedList T), s.invariant →
      (Iter.drain s.lengthFn s.iter).1 = s.head ∧
      ((Iter.drain s.lengthFn s.iter).2.step).1 = none ∧
      (IterMut.drain s.lengthFn s.iter_mut).1 = s.head ∧
      ((IterMut.drain s.lengthFn s.iter_mut).2.step).1 = none ∧
      (IntoIter.drain s.lengthFn s.into_iter).1 = s.head ∧
      (IntoIter.drain s.lengthFn s.into_iter).2.list.head = [] := by
  constructor
  · decide
  · intro T s hinv
    obtain ⟨c, len⟩ := s
    rw [invariant] at hinv
    simp only at hinv
    subst hinv
    refine ⟨?_, ?_, ?_, ?_, ?_, ?_⟩ <;>
      simp [lengthFn, iter, iter_mut, into_iter, Iter.drainFullIter, IterMut.drainFullIterMut,
        IntoIter.drainFullIntoIter, Iter.step, IterMut.step]

open LinkedList in
/-- Claim C5 witness: instantiated at the concrete two-element list built by
pushing 5 then 7, whose invariant holds. -/
theorem C5_iterators_witness :
    ((new Nat).push 5 |>.push 7).invariant ∧
    (Iter.drain ((new Nat).push 5 |>.push 7).lengthFn
        ((new Nat).push 5 |>.push 7).iter).1 = ((new Nat).push 5 |>.push 7).head :=
  ⟨by decide,
    (C5_iterators_order_and_count.2 Nat ((new Nat).push 5 |>.push 7) (by decide)).1⟩

open LinkedList in
/-- Claim C6: a call to `peek()` leaves the state (hence `length()` and the
whole chain) unchanged, its result is `peek`, and an immediately repeated
call returns the same value. -/
theorem C6_peek_frame (T : Type) (s : LinkedList T) :
    (s.peek_call).2 = s ∧
    (s.peek_call).2.lengthFn = s.lengthFn ∧
    (s.peek_call).2.head = s.head ∧
    (s.peek_call).1 = s.peek ∧
    ((s.peek_call).2.peek_call).1 = (s.peek_call).1 :=
  ⟨rfl, rfl, rfl, rfl, rfl⟩

open LinkedList in
/-- Claim C7: after `clear()` on any list, `length()` is 0, `is_empty()` is
true, a subsequent `pop()` returns none, and no node is reachable from head. -/
theorem C7_clear_resets (T : Type) (s : LinkedList T) :
    (s.clear).lengthFn = 0 ∧
    (s.clear).is_empty = true ∧
    ((s.clear).pop).1 = none ∧
    (s.clear).head = [] :=
  ⟨rfl, rfl, rfl, rfl⟩

open LinkedList in
/-- Claim C8: on a non-empty list, writing `v` through the mutable reference
returned by `peek_mut()` makes the next `pop()` return `some v` and the next
`peek()` return `v`; on an empty list `peek_mut()` returns none. -/
theorem C8_peek_mut_write_observable (T : Type) (s : LinkedList T) (v : T)
    (h : s.head ≠ []) :
    ((s.peek_mut_write v).pop).1 = some v ∧
    (s.peek_mut_write v).peek = some v ∧
    (∀ s2 : LinkedList T, s2.head = [] → s2.peek_mut = none) := by
  cases hc : s.head with
  | nil => exact absurd hc h
  | cons a c =>
    refine ⟨?_, ?_, ?_⟩
    · simp [peek_mut_write, pop, hc]
    · simp [peek_mut_write, peek, hc]
    · intro s2 h2
      simp [peek_mut, h2]

open LinkedList in
/-- Claim C8 witness: on the one-element list built by push(1), writing 9
through the head reference makes the next pop return 9. -/
theorem C8_peek_mut_witness :
    ((new Nat).push 1).head ≠ [] ∧
    ((((new Nat).push 1).peek_mut_write 9).pop).1 = some 9 :=
  ⟨by decide, (C8_peek_mut_write_observable Nat ((new Nat).push 1) 9 (by decide)).1⟩

open LinkedList in
/-- Claim C9: the `Drop` loop releases exactly the nodes of the chain, each
once, in front-to-back order, performing one iteration per node (so the work
is iterative, linear in the chain length, not recursive destructor chaining);
in particular on a 100000-node chain it performs exactly 100000 iterations. -/
theorem C9_drop_iterative (T : Type) (s : LinkedList T) :
    dropRun s.head = s.head ∧
    dropSteps s.head = s.head.length ∧
    dropSteps (List.replicate 100000 (0 : Nat)) = 100000 := by
  refine ⟨dropRun_eq s.head, dropSteps_eq s.head, ?_⟩
  rw [dropSteps_eq, List.length_replicate]

open LinkedList in
/-- Claim C10: popping a list whose head is none returns none and leaves the
list (head and stored length) entirely unchanged, so the guarded decrement
never runs on an empty list and the counter cannot underflow. -/
theorem C10_pop_empty_unchanged (T : Type) (s : LinkedList T) (h : s.head = []) :
    s.pop = (none, s) ∧
    (s.pop).2.lengthFn = s.lengthFn ∧
    (new T).pop = (none, new T) := by
  have hp : s.pop = (none, s) := by
    simp [pop, h]
  exact ⟨hp, by rw [hp], rfl⟩

open LinkedList in
/-- Claim C10 witness: instantiated at the empty list. -/
theorem C10_pop_empty_witness :
    (new Nat).head = [] ∧ (new Nat).pop = (none, new Nat) :=
  ⟨rfl, (C10_pop_empty_unchanged Nat (new Nat) rfl).1⟩

end AlgoRust
